import Mathlib

/-!
Shallow embedding of the matching core of `src/logic.py` (MusicMatch).

The embedded fragment is: the artist-name normalizer, the Jaccard
similarity engine, the `User` record, and the `Matcher` store with its
upsert (`add_user`), ranking (`match`), and persistence
(`to_dict` / `from_file` / `save`) operations, together with the seed
dataset literal `sample_users`.

Modelling conventions:
* Python `float` scores are modelled as `ℚ`; every score produced by the
  code is an exact ratio of small naturals, and rounding is monotone, so
  order-sensitive statements transfer.
* Python strings are Lean `String`s; `strip`, `casefold` and `split` are
  re-implemented below over `List Char` so that they compute by
  structural recursion (on the repository's data, which is ASCII,
  `casefold` coincides with per-character lowercasing).
* Files are modelled at the JSON-value level: a path's content is
  `Option (Except PyError Json)` — `none` when no file exists, `.error`
  when the text does not parse as JSON (what `json.load` raises), `.ok`
  when it parses.  `json.dump` followed by `json.load` is the identity
  on this representation.
* Exceptions raised by the Python code are modelled with `Except PyError`.
-/

namespace MusicMatch

/-- The six ASCII whitespace characters recognised by Python's
`str.strip()` / `str.split()`. -/
def isPySpace (c : Char) : Bool :=
  c = ' ' || c = '\t' || c = '\n' || c = '\r' || c = '\x0b' || c = '\x0c'

/-- Per-character case folding; on the ASCII data of this repository this
agrees with Python's `str.casefold()`. -/
def charFold (c : Char) : Char := c.toLower

/-- Python `s.casefold()`. -/
def pyCasefold (s : String) : String := String.mk (s.data.map charFold)

/-- Python `s.strip()`: drop leading and trailing whitespace. -/
def pyStrip (s : String) : String :=
  String.mk (((s.data.dropWhile isPySpace).reverse.dropWhile isPySpace).reverse)

/-- Worker for `pySplit`: scan the characters, accumulating the current
word (reversed) in `acc`; whitespace ends a word, empty words are dropped. -/
def pyWordsGo : List Char → List Char → List String
  | [], acc => if acc = [] then [] else [String.mk acc.reverse]
  | c :: cs, acc =>
    if isPySpace c then
      if acc = [] then pyWordsGo cs [] else String.mk acc.reverse :: pyWordsGo cs []
    else
      pyWordsGo cs (c :: acc)

/-- Python `s.split()` with no argument: split on runs of whitespace,
discarding empty pieces. -/
def pySplit (s : String) : List String := pyWordsGo s.data []

/-- `normalize_artist` (`logic.py` line 48):
`" ".join(a.strip().casefold().split())`. -/
def normalize_artist (a : String) : String :=
  " ".intercalate (pySplit (pyCasefold (pyStrip a)))

/-- The identity key computed at both call sites that compare user names
(`logic.py` lines 73 and 82): `name.strip().casefold()`. -/
def identKey (s : String) : String := pyCasefold (pyStrip s)

/-- Lexicographic comparison of character lists by code point; this is how
Python compares the (ASCII) strings appearing in this program. -/
def charsLe : List Char → List Char → Bool
  | [], _ => true
  | _ :: _, [] => false
  | a :: as, b :: bs =>
    if a.toNat < b.toNat then true
    else if b.toNat < a.toNat then false
    else charsLe as bs

/-- Python `s <= t` on strings, as a proposition. -/
def strOrd (s t : String) : Prop := charsLe s.data t.data = true

instance : DecidableRel strOrd := fun s t => by
  unfold strOrd; infer_instance

theorem charsLe_cons_iff (a b : Char) (as bs : List Char) :
    charsLe (a :: as) (b :: bs) = true ↔
      a.toNat < b.toNat ∨ (a.toNat = b.toNat ∧ charsLe as bs = true) := by
  simp only [charsLe]
  by_cases h1 : a.toNat < b.toNat
  · simp [h1]
  · by_cases h2 : b.toNat < a.toNat
    · rw [if_neg h1, if_pos h2]
      constructor
      · intro h; cases h
      · rintro (h | ⟨h, _⟩) <;> omega
    · have heq : a.toNat = b.toNat := by omega
      simp [h1, h2, heq]

theorem charsLe_total : ∀ as bs : List Char, charsLe as bs = true ∨ charsLe bs as = true
  | [], _ => Or.inl rfl
  | _ :: _, [] => Or.inr rfl
  | a :: as, b :: bs => by
    rw [charsLe_cons_iff, charsLe_cons_iff]
    rcases Nat.lt_trichotomy a.toNat b.toNat with h | h | h
    · exact Or.inl (Or.inl h)
    · rcases charsLe_total as bs with ih | ih
      · exact Or.inl (Or.inr ⟨h, ih⟩)
      · exact Or.inr (Or.inr ⟨h.symm, ih⟩)
    · exact Or.inr (Or.inl h)

theorem charsLe_trans :
    ∀ as bs cs : List Char, charsLe as bs = true → charsLe bs cs = true →
      charsLe as cs = true
  | [], _, _, _, _ => rfl
  | a :: as, [], _, hab, _ => by simp [charsLe] at hab
  | _ :: _, _ :: _, [], _, hbc => by simp [charsLe] at hbc
  | a :: as, b :: bs, c :: cs, hab, hbc => by
    rw [charsLe_cons_iff] at hab hbc ⊢
    rcases hab with h1 | ⟨h1, rab⟩
    · rcases hbc with h2 | ⟨h2, _⟩
      · exact Or.inl (by omega)
      · exact Or.inl (by omega)
    · rcases hbc with h2 | ⟨h2, rbc⟩
      · exact Or.inl (by omega)
      · exact Or.inr ⟨by omega, charsLe_trans as bs cs rab rbc⟩

theorem strOrd_total (s t : String) : strOrd s t ∨ strOrd t s :=
  charsLe_total s.data t.data

theorem strOrd_trans {s t u : String} (h1 : strOrd s t) (h2 : strOrd t u) :
    strOrd s u :=
  charsLe_trans s.data t.data u.data h1 h2

/-- The `User` dataclass (`logic.py` lines 39-45). -/
structure User where
  name : String
  top_artists : List String
deriving DecidableEq, Repr

/-- `User.normalized_artists`:
`[normalize_artist(a) for a in self.top_artists if a.strip()]`. -/
def User.normalized_artists (u : User) : List String :=
  (u.top_artists.filter (fun a => pyStrip a != "")).map normalize_artist

/-- `jaccard_similarity` (`logic.py` lines 53-59).  The Python `float`
result is modelled as `ℚ`; both division operands are small naturals, so
the value is exact. -/
def jaccard_similarity (a b : List String) : ℚ :=
  if a.toFinset = ∅ ∧ b.toFinset = ∅ then 0
  else ((a.toFinset ∩ b.toFinset).card : ℚ) / ((a.toFinset ∪ b.toFinset).card : ℚ)

/-- `overlap_count` (`logic.py` lines 62-63). -/
def overlap_count (a b : List String) : ℕ :=
  (a.toFinset ∩ b.toFinset).card

/-- `sorted(set(q_art) & set(u_art))` (`logic.py` line 86): the distinct
common elements of the two lists, in ascending code-point order.  The
distinct common elements are collected by filtering and deduplicating;
`insertionSort` with the total order `strOrd` then yields the unique
ascending enumeration that Python's `sorted` produces. -/
def sortedShared (a b : List String) : List String :=
  List.insertionSort strOrd ((a.filter (fun s => decide (s ∈ b))).dedup)

/-- One entry of the list built by `Matcher.match`: the Python tuple
`(u, score, shared)`. -/
abbrev ScoredEntry := User × ℚ × List String

/-- The sort key of `logic.py` lines 89-90:
`(x[1], len(x[2]), x[0].name.casefold())`. -/
def entryKey (x : ScoredEntry) : ℚ × ℕ × String :=
  (x.2.1, x.2.2.length, pyCasefold x.1.name)

/-- Python's `<=` on the key triples (lexicographic tuple comparison). -/
def keyLE (a b : ℚ × ℕ × String) : Prop :=
  a.1 < b.1 ∨ (a.1 = b.1 ∧ (a.2.1 < b.2.1 ∨ (a.2.1 = b.2.1 ∧ strOrd a.2.2 b.2.2)))

instance : DecidableRel keyLE := fun a b => by
  unfold keyLE; infer_instance

theorem keyLE_total (a b : ℚ × ℕ × String) : keyLE a b ∨ keyLE b a := by
  unfold keyLE
  rcases lt_trichotomy a.1 b.1 with h | h | h
  · exact Or.inl (Or.inl h)
  · rcases lt_trichotomy a.2.1 b.2.1 with h2 | h2 | h2
    · exact Or.inl (Or.inr ⟨h, Or.inl h2⟩)
    · rcases strOrd_total a.2.2 b.2.2 with h3 | h3
      · exact Or.inl (Or.inr ⟨h, Or.inr ⟨h2, h3⟩⟩)
      · exact Or.inr (Or.inr ⟨h.symm, Or.inr ⟨h2.symm, h3⟩⟩)
    · exact Or.inr (Or.inr ⟨h.symm, Or.inl h2⟩)
  · exact Or.inr (Or.inl h)

theorem keyLE_trans {a b c : ℚ × ℕ × String}
    (hab : keyLE a b) (hbc : keyLE b c) : keyLE a c := by
  unfold keyLE at hab hbc ⊢
  rcases hab with h1 | ⟨e1, h1⟩
  · rcases hbc with h2 | ⟨e2, _⟩
    · exact Or.inl (h1.trans h2)
    · exact Or.inl (e2 ▸ h1)
  · rcases hbc with h2 | ⟨e2, h2⟩
    · exact Or.inl (e1 ▸ h2)
    · refine Or.inr ⟨e1.trans e2, ?_⟩
      rcases h1 with h1 | ⟨f1, h1⟩
      · rcases h2 with h2 | ⟨f2, _⟩
        · exact Or.inl (h1.trans h2)
        · exact Or.inl (f2 ▸ h1)
      · rcases h2 with h2 | ⟨f2, h2⟩
        · exact Or.inl (f1 ▸ h2)
        · exact Or.inr ⟨f1.trans f2, strOrd_trans h1 h2⟩

/-- The order in which Python's `scored.sort(key=..., reverse=True)` lays
out the list: `x` may precede `y` exactly when `y`'s key is `<=` `x`'s
key (stable descending sort by the key triple). -/
def scoredRel (x y : ScoredEntry) : Prop := keyLE (entryKey y) (entryKey x)

instance : DecidableRel scoredRel := fun x y => by
  unfold scoredRel; infer_instance

instance : IsTotal ScoredEntry scoredRel :=
  ⟨fun x y => keyLE_total (entryKey y) (entryKey x)⟩

instance : IsTrans ScoredEntry scoredRel :=
  ⟨fun _ _ _ hxy hyz => keyLE_trans hyz hxy⟩

/-- Python's `l[:k]` slice: for nonnegative `k` the first `k` elements,
for negative `k` everything but the last `-k` elements. -/
def pySliceTo {α : Type} (k : Int) (l : List α) : List α :=
  if 0 ≤ k then l.take k.toNat else l.take (l.length - (-k).toNat)

/-- The `Matcher` class (`logic.py` lines 66-109): it owns the ordered
list of user records. -/
structure Matcher where
  users : List User
deriving DecidableEq, Repr

/-- `Matcher.__init__` (`logic.py` lines 67-68): `self.users = users or []`.
(`None` and the empty list are both falsy, and both produce `[]`.) -/
def Matcher.init (users : Option (List User)) : Matcher :=
  ⟨users.getD []⟩

/-- Worker for `Matcher.add_user` (`logic.py` lines 70-76): walk the list;
the first record whose identity key matches is replaced in place, and if
none matches the record is appended at the end. -/
def addUserGo (user : User) : List User → List User
  | [] => [user]
  | u :: rest =>
    if identKey u.name = identKey user.name then user :: rest
    else u :: addUserGo user rest

/-- `Matcher.add_user`. -/
def Matcher.add_user (m : Matcher) (user : User) : Matcher :=
  ⟨addUserGo user m.users⟩

/-- The `scored` list built by the loop of `Matcher.match` (`logic.py`
lines 80-87): every stored record except those whose identity key equals
the query's, paired with its score and sorted shared-artist list. -/
def Matcher.scored (m : Matcher) (query : User) : List ScoredEntry :=
  (m.users.filter (fun u => !(identKey u.name == identKey query.name))).map
    (fun u =>
      (u, jaccard_similarity query.normalized_artists u.normalized_artists,
        sortedShared query.normalized_artists u.normalized_artists))

/-- `Matcher.match` (`logic.py` lines 78-91): build the scored list, sort
it descending by `(score, shared count, casefolded name)` with a stable
sort, and return the Python slice `scored[:top_k]`.  (`match` is a
reserved word in Lean, hence the name `matchQuery`.) -/
def Matcher.matchQuery (m : Matcher) (query : User) (top_k : Int := 5) :
    List ScoredEntry :=
  pySliceTo top_k (List.insertionSort scoredRel (m.scored query))

/-- `Matcher.match` as a state transformer on the store, reflecting that
the method reads `self.users` but never assigns to it (the only list it
mutates is the local `scored`). -/
def Matcher.matchOp (m : Matcher) (query : User) (top_k : Int) :
    Matcher × List ScoredEntry :=
  (m, m.matchQuery query top_k)

/-- JSON values, the level at which files are modelled. -/
inductive Json where
  | str (s : String)
  | num (q : ℚ)
  | jsonBool (b : Bool)
  | null
  | arr (items : List Json)
  | obj (fields : List (String × Json))

/-- Exceptions the embedded code can raise. -/
inductive PyError where
  /-- `TypeError: bad operand type for unary +: 'tuple'` — raised while
  evaluating the `sample_users` seed literal, whose sixth element is
  written `+("Anaya", [...])` (`logic.py` line 123 ends in a stray `+`). -/
  | typeErrorUnaryPlusTuple
  /-- `json.JSONDecodeError` raised by `json.load` on text that is not
  valid JSON. -/
  | jsonDecodeError
  /-- A JSON value whose dynamic shape falls outside the typed model
  (e.g. a non-string `name`, or a non-list `users`): the Python code
  would carry such values onward as raw dynamic objects; the typed
  embedding stops there instead.  No claim exercises this constructor. -/
  | dynamicTypeMismatch
deriving DecidableEq, Repr

/-- Python `dict.get(key, default)` on a parsed JSON object.  (`to_dict`
never emits duplicate keys, and `json.load` collapses them, so first
match is adequate.) -/
def jsonGet (fields : List (String × Json)) (key : String) (default : Json) :
    Json :=
  (fields.lookup key).getD default

/-- The JSON entry `{"name": u.name, "top_artists": u.top_artists}`
produced for one user by `Matcher.to_dict` (`logic.py` line 95). -/
def encodeUser (u : User) : Json :=
  .obj [("name", .str u.name), ("top_artists", .arr (u.top_artists.map .str))]

/-- `Matcher.to_dict` (`logic.py` lines 94-95). -/
def Matcher.to_dict (m : Matcher) : Json :=
  .obj [("users", .arr (m.users.map encodeUser))]

/-- Read a JSON string back as a Python `str`. -/
def decodeStr : Json → Except PyError String
  | .str s => .ok s
  | _ => .error .dynamicTypeMismatch

/-- Read the `top_artists` array elementwise, left to right. -/
def decodeStrList : List Json → Except PyError (List String)
  | [] => .ok []
  | j :: rest =>
    (decodeStr j).bind fun s =>
      (decodeStrList rest).bind fun ss => .ok (s :: ss)

/-- Read a `top_artists` value. -/
def decodeArtists : Json → Except PyError (List String)
  | .arr items => decodeStrList items
  | _ => .error .dynamicTypeMismatch

/-- `User(u.get("name", ""), u.get("top_artists", []))`
(`logic.py` line 103). -/
def decodeUser : Json → Except PyError User
  | .obj fields =>
    (decodeStr (jsonGet fields "name" (.str ""))).bind fun name =>
      (decodeArtists (jsonGet fields "top_artists" (.arr []))).bind fun arts =>
        .ok ⟨name, arts⟩
  | _ => .error .dynamicTypeMismatch

/-- The list comprehension over `data.get("users", [])`
(`logic.py` lines 103-104), evaluated left to right. -/
def decodeUserList : List Json → Except PyError (List User)
  | [] => .ok []
  | j :: rest =>
    (decodeUser j).bind fun u =>
      (decodeUserList rest).bind fun us => .ok (u :: us)

/-- Build the user list from the parsed JSON document. -/
def decodeUsers (data : Json) : Except PyError (List User) :=
  match data with
  | .obj fields =>
    match jsonGet fields "users" (.arr []) with
    | .arr items => decodeUserList items
    | _ => .error .dynamicTypeMismatch
  | _ => .error .dynamicTypeMismatch

/-- One element of the `seed` list literal in `sample_users`
(`logic.py` lines 114-132).  The element for "Anaya" is written with a
stray unary `+` in front of its tuple (line 123 of the source ends in
`+`, so line 124 parses as `+("Anaya", ...)`). -/
inductive SeedElem where
  | plain (entry : String × List String)
  | uplus (entry : String × List String)
deriving DecidableEq, Repr

/-- The tuple carried by a seed element, as written in the source. -/
def SeedElem.entry : SeedElem → String × List String
  | .plain e => e
  | .uplus e => e

/-- The `seed` list literal of `sample_users`, element by element. -/
def seedLiteral : List SeedElem :=
  [ .plain ("Aarav", ["Taylor Swift", "Weeknd",
      "Imagine Dragons", "AURORA", "Coldplay"]),
    .plain ("Zoya", ["BTS", "Blackpink", "IU", "NewJeans", "Weeknd"]),
    .plain ("Kabir", ["Arijit Singh", "Pritam",
      "Shreya Ghoshal", "A R Rahman", "Jubin Nautiyal"]),
    .plain ("Mia", ["Billie Eilish", "Lana Del Rey",
      "AURORA", "Grimes", "FKA twigs"]),
    .plain ("Rishabh", ["Linkin Park", "Imagine Dragons",
      "Fall Out Boy", "Green Day", "My Chemical Romance"]),
    .uplus ("Anaya", ["AP Dhillon", "Shubh",
      "Karan Aujla", "Badshah", "Diljit Dosanjh"]),
    .plain ("Noah", ["Drake", "Kendrick Lamar",
      "J. Cole", "Travis Scott", "SZA"]),
    .plain ("Ishi", ["A R Rahman", "Shreya Ghoshal",
      "KK", "Arijit Singh", "Sonu Nigam"]),
    .plain ("Yuto", ["YOASOBI", "Kenshi Yonezu", "Aimer", "King Gnu", "Eve"]),
    .plain ("Sana", ["Twice", "Blackpink", "NewJeans", "LE SSERAFIM", "IVE"]) ]

/-- Evaluate one element of the seed literal.  A tuple written under a
unary `+` raises `TypeError` (tuples do not implement unary plus). -/
def evalSeedElem : SeedElem → Except PyError (String × List String)
  | .plain e => .ok e
  | .uplus _ => .error .typeErrorUnaryPlusTuple

/-- Evaluate the seed list literal left to right. -/
def evalSeedList : List SeedElem → Except PyError (List (String × List String))
  | [] => .ok []
  | e :: rest =>
    (evalSeedElem e).bind fun v =>
      (evalSeedList rest).bind fun vs => .ok (v :: vs)

/-- `sample_users` (`logic.py` lines 112-133): evaluate the seed literal
and wrap its tuples in `User`. -/
def sample_users : Except PyError (List User) :=
  (evalSeedList seedLiteral).bind fun seed =>
    .ok (seed.map fun p => User.mk p.1 p.2)

/-- `Matcher.from_file` (`logic.py` lines 97-105).  The file at the path
is given as `none` (no file), `some (.error e)` (a file whose text
`json.load` rejects), or `some (.ok data)` (a file parsing to `data`). -/
def Matcher.from_file (file : Option (Except PyError Json)) :
    Except PyError Matcher :=
  match file with
  | none => sample_users.bind fun us => .ok ⟨us⟩
  | some parsed =>
    parsed.bind fun data =>
      (decodeUsers data).bind fun us => .ok ⟨us⟩

/-- `Matcher.save` (`logic.py` lines 107-109): the content of the path
after a successful save — a file whose text parses back to `to_dict`. -/
def Matcher.save (m : Matcher) : Option (Except PyError Json) :=
  some (.ok m.to_dict)

/-- The store invariant stated in the specification: at most one record
per normalized identity. -/
def Matcher.identInvariant (m : Matcher) : Prop :=
  (m.users.map (fun u => identKey u.name)).Nodup

instance (m : Matcher) : Decidable m.identInvariant := by
  unfold Matcher.identInvariant; infer_instance

/-- Two names that consist of the same letters in the same order, up to
letter case and up to whitespace (leading, trailing or internal):
casefolding and deleting every whitespace character makes them equal. -/
def lettersKey (s : String) : String :=
  String.mk ((pyCasefold s).data.filter (fun c => !(isPySpace c)))

/-- A two-record store with distinct identities and no artists; both
candidates tie at score `0` and shared count `0` against `tieQuery`. -/
def tieStore : Matcher := Matcher.init (some [⟨"Alice", []⟩, ⟨"Bob", []⟩])

/-- A query user distinct from both records of `tieStore`. -/
def tieQuery : User := ⟨"Query", []⟩

/-! Helper lemmas. -/

theorem pySliceTo_sublist {α : Type} (k : Int) (l : List α) :
    (pySliceTo k l).Sublist l := by
  unfold pySliceTo
  split
  · exact List.take_sublist _ _
  · exact List.take_sublist _ _

theorem mem_scored_of_mem_matchQuery {m : Matcher} {q : User} {k : Int}
    {x : ScoredEntry} (hx : x ∈ m.matchQuery q k) : x ∈ m.scored q := by
  have h1 : x ∈ List.insertionSort scoredRel (m.scored q) :=
    (pySliceTo_sublist k _).mem hx
  exact (List.mem_insertionSort scoredRel).mp h1

/-- The actual order produced by `Matcher.match`: the result is pairwise
ordered by `scoredRel`, i.e. descending in the key triple
`(score, shared count, casefolded name)` — the `reverse=True` sort
reverses the name component along with the other two. -/
theorem matchQuery_sorted_desc (m : Matcher) (q : User) (k : Int) :
    (m.matchQuery q k).Pairwise scoredRel :=
  List.Pairwise.sublist (pySliceTo_sublist k _)
    (List.sorted_insertionSort scoredRel (m.scored q))

theorem mem_map_identKey_addUserGo {x : String} (u : User) (l : List User)
    (h : x ∈ (addUserGo u l).map (fun v => identKey v.name)) :
    x ∈ l.map (fun v => identKey v.name) ∨ x = identKey u.name := by
  induction l with
  | nil =>
    simp only [addUserGo, List.map_cons, List.map_nil, List.mem_singleton] at h
    exact Or.inr h
  | cons v rest ih =>
    by_cases hv : identKey v.name = identKey u.name
    · simp only [addUserGo, if_pos hv, List.map_cons, List.mem_cons] at h
      rcases h with h | h
      · exact Or.inr h
      · exact Or.inl (List.mem_cons_of_mem _ h)
    · simp only [addUserGo, if_neg hv, List.map_cons, List.mem_cons] at h
      rcases h with h | h
      · exact Or.inl (List.mem_cons.mpr (Or.inl h))
      · rcases ih h with h' | h'
        · exact Or.inl (List.mem_cons_of_mem _ h')
        · exact Or.inr h'

theorem nodup_map_identKey_addUserGo (u : User) (l : List User)
    (h : (l.map (fun v => identKey v.name)).Nodup) :
    ((addUserGo u l).map (fun v => identKey v.name)).Nodup := by
  induction l with
  | nil => simp [addUserGo]
  | cons v rest ih =>
    simp only [List.map_cons, List.nodup_cons] at h
    by_cases hv : identKey v.name = identKey u.name
    · simp only [addUserGo, if_pos hv, List.map_cons, List.nodup_cons]
      exact ⟨hv ▸ h.1, h.2⟩
    · simp only [addUserGo, if_neg hv, List.map_cons, List.nodup_cons]
      refine ⟨fun hmem => ?_, ih h.2⟩
      rcases mem_map_identKey_addUserGo u rest hmem with h' | h'
      · exact h.1 h'
      · exact hv h'

theorem addUserGo_eq_findIdx (u : User) (l : List User) :
    addUserGo u l =
      match l.findIdx? (fun v => identKey v.name == identKey u.name) with
      | some i => l.set i u
      | none => l ++ [u] := by
  induction l with
  | nil => simp [addUserGo, List.findIdx?]
  | cons v rest ih =>
    by_cases hv : identKey v.name = identKey u.name
    · simp [addUserGo, hv, List.findIdx?_cons]
    · rw [List.findIdx?_cons, if_neg (by simpa using hv), List.findIdx?_succ]
      cases hfd : rest.findIdx? (fun v => identKey v.name == identKey u.name) with
      | none =>
        rw [hfd] at ih
        simp only [Option.map_none']
        simpa [addUserGo, if_neg hv] using congrArg (v :: ·) ih
      | some i =>
        rw [hfd] at ih
        simp only [Option.map_some']
        simpa [addUserGo, if_neg hv, List.set_cons_succ] using
          congrArg (v :: ·) ih

theorem addUserGo_length (u : User) (l : List User) :
    (addUserGo u l).length =
      if l.any (fun v => identKey v.name == identKey u.name)
      then l.length else l.length + 1 := by
  induction l with
  | nil => simp [addUserGo]
  | cons v rest ih =>
    by_cases hv : identKey v.name = identKey u.name
    · simp [addUserGo, hv]
    · have hb : (identKey v.name == identKey u.name) = false := by simpa using hv
      simp only [addUserGo, if_neg hv, List.length_cons, ih, List.any_cons, hb,
        Bool.false_or]
      by_cases hrest : rest.any (fun v => identKey v.name == identKey u.name)
      · rw [if_pos hrest, if_pos hrest]
      · rw [if_neg hrest, if_neg hrest]

theorem decodeStrList_map_str (l : List String) :
    decodeStrList (l.map .str) = .ok l := by
  induction l with
  | nil => rfl
  | cons s rest ih => simp [decodeStrList, decodeStr, ih, Except.bind]

theorem decodeUser_encodeUser (u : User) : decodeUser (encodeUser u) = .ok u := by
  have harts :
      decodeArtists (.arr (u.top_artists.map .str)) = .ok u.top_artists := by
    simp [decodeArtists, decodeStrList_map_str]
  simp [decodeUser, encodeUser, jsonGet, List.lookup, decodeStr, harts,
    Except.bind]

theorem decodeUserList_map_encode (l : List User) :
    decodeUserList (l.map encodeUser) = .ok l := by
  induction l with
  | nil => rfl
  | cons u rest ih =>
    simp [decodeUserList, decodeUser_encodeUser, ih, Except.bind]

/-! Claims. -/

/-- C1: the claim says `from_file` on a nonexistent path returns a
Matcher holding the ten demo seed users.  The seed literal does list the
ten demo names, but its sixth element carries a stray unary `+`
(`logic.py` line 123 ends in `+`), so evaluating the literal raises
`TypeError: bad operand type for unary +: 'tuple'` and `from_file` on a
missing file propagates that error instead of returning any Matcher. -/
theorem claim_C1 :
    Matcher.from_file none = .error .typeErrorUnaryPlusTuple ∧
    seedLiteral.length = 10 ∧
    seedLiteral.map (fun e => e.entry.1) =
      ["Aarav", "Zoya", "Kabir", "Mia", "Rishabh",
       "Anaya", "Noah", "Ishi", "Yuto", "Sana"] :=
  ⟨rfl, rfl, by decide⟩

/-- C2: the claim (and the code's own comment on `logic.py` line 88,
"then name asc") says ties in score and shared-count are broken by
candidate name ascending under case-folding.  Because `reverse=True`
reverses every component of the sort key, the code actually orders tied
names descending: on a store holding Alice and Bob, both with no
artists, a disjoint query yields both candidates with score `0` and
shared count `0`, and the result lists Bob before Alice. -/
theorem claim_C2 :
    (tieStore.matchQuery tieQuery 5).map
        (fun e => (e.1.name, e.2.1, e.2.2.length)) =
      [("Bob", 0, 0), ("Alice", 0, 0)] := by decide

/-- C3 counterexample: the claim asserts the at-most-one-record-per-
normalized-identity invariant also after construction from a
caller-supplied list, but `__init__` stores the list unchecked: a list
holding users named `"a"` and `"A"` yields a store with two records of
the same normalized identity. -/
theorem claim_C3_cex :
    ¬ (Matcher.init (some [⟨"a", []⟩, ⟨"A", []⟩])).identInvariant := by
  decide

/-- C3 amended: `add_user` preserves the at-most-one-record-per-
normalized-identity invariant; construction from a caller-supplied list
(and file load) does not enforce it. -/
theorem claim_C3 (m : Matcher) (u : User) (h : m.identInvariant) :
    (m.add_user u).identInvariant :=
  nodup_map_identKey_addUserGo u m.users h

/-- C3 witness: a concrete invariant-respecting store stays
invariant-respecting after an upsert. -/
theorem claim_C3_witness :
    (Matcher.init (some [⟨"Niks", []⟩])).identInvariant ∧
    ((Matcher.init (some [⟨"Niks", []⟩])).add_user ⟨"Tic", []⟩).identInvariant :=
  ⟨by decide, claim_C3 _ _ (by decide)⟩

/-- C4 counterexample: `"a  b"` differs from the stored `"a b"` only in
whitespace (both become `"ab"` after casefolding and deleting
whitespace), yet `add_user` appends instead of replacing — the identity
comparison trims and casefolds but does not collapse internal
whitespace, so the collection grows from one record to two. -/
theorem claim_C4_cex :
    lettersKey "a  b" = lettersKey "a b" ∧
    ((Matcher.init (some [⟨"a b", []⟩])).add_user ⟨"a  b", []⟩).users.length
      = 2 := by decide

/-- C4 amended: `add_user` replaces in place at the first index whose
stored name matches the new name after trim + casefold (letter case and
leading/trailing whitespace differences only), keeping the collection
size; when no such match exists the record is appended at the end.
Names differing in internal whitespace are not identified. -/
theorem claim_C4 (m : Matcher) (u : User) :
    (m.add_user u).users =
      (match m.users.findIdx? (fun v => identKey v.name == identKey u.name) with
       | some i => m.users.set i u
       | none => m.users ++ [u]) ∧
    (m.add_user u).users.length =
      (if m.users.any (fun v => identKey v.name == identKey u.name)
       then m.users.length else m.users.length + 1) :=
  ⟨addUserGo_eq_findIdx u m.users, addUserGo_length u m.users⟩

/-- C5: `match` never returns an entry whose record has the same
trimmed-casefolded name as the query — the loop skips every such record
before scoring. -/
theorem claim_C5 (m : Matcher) (q : User) (k : Int) (x : ScoredEntry)
    (hx : x ∈ m.matchQuery q k) :
    identKey x.1.name ≠ identKey q.name := by
  have hsc : x ∈ m.scored q := mem_scored_of_mem_matchQuery hx
  simp only [Matcher.scored, List.mem_map] at hsc
  obtain ⟨u, hu, rfl⟩ := hsc
  rw [List.mem_filter] at hu
  simpa using hu.2

/-- C5 witness: concrete instance — Bob is returned for query Q, and
their identity keys differ. -/
theorem claim_C5_witness :
    (⟨⟨"Bob", []⟩, 0, []⟩ : ScoredEntry) ∈
      ((Matcher.init (some [⟨"Bob", []⟩])).matchQuery ⟨"Q", []⟩ 5) ∧
    identKey (User.mk "Bob" []).name ≠ identKey (User.mk "Q" []).name :=
  ⟨by decide,
   claim_C5 (Matcher.init (some [⟨"Bob", []⟩])) ⟨"Q", []⟩ 5
     ⟨⟨"Bob", []⟩, 0, []⟩ (by decide)⟩

/-- C6 counterexample: the claim says every `topK ≤ 0` yields an empty
sequence, but Python's slice `scored[:top_k]` treats negative bounds as
counting from the end: with two tied candidates and `topK = -1` the
result keeps one entry. -/
theorem claim_C6_cex :
    ((-1 : Int) ≤ 0) ∧ (tieStore.matchQuery tieQuery (-1)).length = 1 := by
  decide

/-- C6 amended: for `topK ≥ 0`, `match` returns exactly the first
`topK` entries of the sorted candidate list (all of them when fewer than
`topK` exist), so its length is `min topK (number of candidates)` and
`topK = 0` yields the empty sequence; a negative `topK = -n` instead
drops the last `n` entries. -/
theorem claim_C6 (m : Matcher) (q : User) (k : Int) (hk : 0 ≤ k) :
    m.matchQuery q k =
      (List.insertionSort scoredRel (m.scored q)).take k.toNat ∧
    (m.matchQuery q k).length = min k.toNat (m.scored q).length ∧
    m.matchQuery q 0 = [] := by
  refine ⟨by simp [Matcher.matchQuery, pySliceTo, hk], ?_, ?_⟩
  · simp only [Matcher.matchQuery, pySliceTo, if_pos hk, List.length_take,
      (List.perm_insertionSort scoredRel (m.scored q)).length_eq]
  · simp [Matcher.matchQuery, pySliceTo]

/-- C6 witness: `topK = 0` on the concrete non-empty `tieStore` returns
the empty sequence. -/
theorem claim_C6_witness :
    ((0 : Int) ≤ 0) ∧ tieStore.matchQuery tieQuery 0 = [] :=
  ⟨by decide, (claim_C6 tieStore tieQuery 0 (by decide)).2.2⟩

/-- C7: the similarity score is exactly the Jaccard index of the two
lists viewed as sets (in `ℚ` the both-empty case also satisfies the
ratio form, since the guarded branch returns `0`), it is exactly `0` on
two empty lists, and it always lies in `[0, 1]`. -/
theorem claim_C7 (a b : List String) :
    jaccard_similarity a b =
      ((a.toFinset ∩ b.toFinset).card : ℚ) /
        ((a.toFinset ∪ b.toFinset).card : ℚ) ∧
    jaccard_similarity [] [] = 0 ∧
    0 ≤ jaccard_similarity a b ∧ jaccard_similarity a b ≤ 1 := by
  have hmain : ∀ x y : List String,
      jaccard_similarity x y =
        ((x.toFinset ∩ y.toFinset).card : ℚ) /
          ((x.toFinset ∪ y.toFinset).card : ℚ) := by
    intro x y
    unfold jaccard_similarity
    by_cases h : x.toFinset = ∅ ∧ y.toFinset = ∅
    · rw [if_pos h, h.1, h.2]
      simp
    · rw [if_neg h]
  refine ⟨hmain a b, by rw [hmain]; simp, ?_, ?_⟩
  · rw [hmain]
    exact div_nonneg (by positivity) (by positivity)
  · rw [hmain]
    refine div_le_one_of_le₀ ?_ (by positivity)
    have hsub : a.toFinset ∩ b.toFinset ⊆ a.toFinset ∪ b.toFinset :=
      (Finset.inter_subset_left).trans Finset.subset_union_left
    exact_mod_cast Finset.card_le_card hsub

/-- C8: saving a store and loading the same path back reconstructs a
store with the identical ordered record list — names and raw artist
lists (blank or whitespace-only entries included) survive the round
trip, because `to_dict` serializes `top_artists` unfiltered and
`from_file` reads the fields back verbatim. -/
theorem claim_C8 (m : Matcher) : Matcher.from_file m.save = .ok m := by
  have husers :
      decodeUsers m.to_dict = .ok m.users := by
    simp [decodeUsers, Matcher.to_dict, jsonGet, List.lookup,
      decodeUserList_map_encode]
  simp [Matcher.save, Matcher.from_file, husers, Except.bind]

/-- C9: `match` is pure with respect to the store: the post-state equals
the pre-state (the method body only reads `self.users`; the sole list it
mutates is the local `scored`), and in particular the query user is
never inserted. -/
theorem claim_C9 (m : Matcher) (q : User) (k : Int) :
    (m.matchOp q k).1 = m ∧
    (m.matchOp q k).1.users = m.users ∧
    (m.matchOp q k).2 = m.matchQuery q k :=
  ⟨rfl, rfl, rfl⟩

/-- C10: when the path holds a file whose text is not valid JSON,
`json.load` raises and `from_file` propagates the parse error: it
neither falls back to the seed dataset nor returns any store (empty or
otherwise). -/
theorem claim_C10 :
    Matcher.from_file (some (.error .jsonDecodeError)) =
      .error .jsonDecodeError ∧
    ∀ m : Matcher,
      Matcher.from_file (some (.error .jsonDecodeError)) ≠ .ok m :=
  ⟨rfl, fun _ h => Except.noConfusion h⟩

end MusicMatch
